import Mathlib

/-!
Verification development for the daily literature-pipeline repository
(`scripts/utils.py`, `scripts/run_daily.py`, `scripts/build_site.py`).

The Python code is shallowly embedded below: strings are Lean `String`s
manipulated through their character lists, optional/missing dict fields are
`Option String`, Python dicts used as ordered mappings are association lists,
and the two external collaborators (the literature APIs and the
text-generation service) are opaque parameters.  All definitions are
executable.
-/

set_option maxHeartbeats 1000000

/-- Lowercase a single ASCII character, as Python `str.lower` acts on ASCII. -/
def lowerChar (c : Char) : Char :=
  if 65 ≤ c.toNat && c.toNat ≤ 90 then Char.ofNat (c.toNat + 32) else c

/-- Whitespace characters removed by Python `str.strip` / matched by `\s`. -/
def isPyWS (c : Char) : Bool :=
  c == ' ' || c == '\t' || c == '\n' || c == '\r' || c.toNat == 11 || c.toNat == 12

/-- Remove leading and trailing whitespace from a character list. -/
def trimChars (cs : List Char) : List Char :=
  ((cs.dropWhile isPyWS).reverse.dropWhile isPyWS).reverse

/-- Python `s.lower()` (ASCII fragment). -/
def strLower (s : String) : String := String.mk (s.data.map lowerChar)

/-- Python `s.strip()`. -/
def strTrim (s : String) : String := String.mk (trimChars s.data)

/-- Python `s.lower().strip()`. -/
def lowerTrim (s : String) : String := String.mk (trimChars (s.data.map lowerChar))

/-- Python `s.strip().lower()`. -/
def trimLower (s : String) : String := String.mk ((trimChars s.data).map lowerChar)

/-- Python truthiness of an optional string: `None` and `""` are falsy. -/
def truthy : Option String → Bool
  | none => false
  | some s => !(s == "")

/-- Underlying string of an optional string (empty for `None`). -/
def optVal : Option String → String
  | none => ""
  | some s => s

/-- Python `a or b` for strings. -/
def pyOr (a b : String) : String := if a == "" then b else a

/-- Check whether `needle` occurs at the start of `hay`. -/
def startsWith : List Char → List Char → Bool
  | [], _ => true
  | _ :: _, [] => false
  | c :: cs, h :: hs => c == h && startsWith cs hs

/-- Python substring test `needle in hay` on character lists. -/
def containsSub (needle : List Char) : List Char → Bool
  | [] => startsWith needle []
  | c :: cs => startsWith needle (c :: cs) || containsSub needle cs

/-- Python `needle in hay` for strings. -/
def containsStr (hay needle : String) : Bool := containsSub needle.data hay.data

/-- Lowercase ASCII letters and digits: the characters kept by `normalize_title`. -/
def isLowerAlnum (c : Char) : Bool :=
  (97 ≤ c.toNat && c.toNat ≤ 122) || (48 ≤ c.toNat && c.toNat ≤ 57)

/-- Split a character list on a separator character. -/
def splitChar (sep : Char) : List Char → List (List Char)
  | [] => [[]]
  | c :: rest =>
    if c == sep then [] :: splitChar sep rest
    else
      match splitChar sep rest with
      | [] => [[c]]
      | g :: gs => (c :: g) :: gs

/-- Join words with single spaces. -/
def joinSpace : List (List Char) → List Char
  | [] => []
  | [w] => w
  | w :: ws => w ++ ' ' :: joinSpace ws

/-- Embedding of `utils.normalize_title`: lowercase the title, collapse runs of
non-alphanumeric characters to single spaces, and strip the ends. -/
def normalize_title (title : String) : String :=
  if title == "" then ""
  else
    let replaced := (title.data.map lowerChar).map fun c => if isLowerAlnum c then c else ' '
    String.mk (joinSpace ((splitChar ' ' replaced).filter fun w => !w.isEmpty))

/-- Embedding of `utils.choose_key`: the dedup key of an article. -/
def choose_key (doi pmid : Option String) (title : String) : String :=
  if truthy doi then "doi:" ++ lowerTrim (optVal doi)
  else if truthy pmid then "pmid:" ++ strTrim (optVal pmid)
  else "title:" ++ normalize_title title

/-- Embedding of the raw key chain `it.get("doi") or it.get("pmid") or it.get("title")`
used by `run_daily.main` for the summary cache (and by `build_site.build_disease_page`
for the reference list, where a final `or ""` is redundant because the title field
is always a string). -/
def rawKey (doi pmid : Option String) (title : String) : String :=
  if truthy doi then optVal doi
  else if truthy pmid then optVal pmid
  else title

/-- Normalized article record produced by the two source fetchers. -/
structure Article where
  source : String
  pmid : Option String
  doi : Option String
  title : String
  abstract : String
  journal : String
  year : String
  published : String
  url : String
deriving DecidableEq, Repr

/-- Entry of the journal allow-list (`config/journals.yaml`). -/
structure JournalEntry where
  name : String
  aliases : List String
deriving DecidableEq, Repr

/-- Configured disease: id plus matching terms. -/
structure Disease where
  id : String
  terms : List String
deriving DecidableEq, Repr

/-- Configured clinical section: id plus matching keywords. -/
structure SectionCfg where
  id : String
  keywords : List String
deriving DecidableEq, Repr

/-- Embedding of `utils.is_whitelisted`: exact (case-insensitive, trimmed) match
of the journal name against a canonical name or alias; empty journal names fail. -/
def is_whitelisted (journal : String) (wl : List JournalEntry) : Bool :=
  if journal == "" then false
  else
    wl.any fun item =>
      (item.name :: item.aliases).any fun n => lowerTrim journal == lowerTrim n

/-- Inner loop of `utils.match_disease` / `match_section`: first keyword that
occurs as a substring of the haystack. -/
def termsHit (text : String) : List String → Bool
  | [] => false
  | t :: rest => if containsStr text (strLower t) then true else termsHit text rest

/-- Loop of `utils.match_disease` over the configured disease list. -/
def matchDiseaseGo (text : String) : List Disease → Option String
  | [] => none
  | d :: rest => if termsHit text d.terms then some d.id else matchDiseaseGo text rest

/-- Haystack built by the classifier: lowercased `title + " " + abstract`. -/
def haystack (title abstract : String) : String :=
  strLower (title ++ " " ++ abstract)

/-- Embedding of `utils.match_disease`. -/
def match_disease (title abstract : String) (ds : List Disease) : Option String :=
  matchDiseaseGo (haystack title abstract) ds

/-- Loop of `utils.match_section` over the configured section list, with the
fixed fallback id `"treatment"`. -/
def matchSectionGo (text : String) : List SectionCfg → String
  | [] => "treatment"
  | s :: rest => if termsHit text s.keywords then s.id else matchSectionGo text rest

/-- Embedding of `utils.match_section`. -/
def match_section (title abstract : String) (ss : List SectionCfg) : String :=
  matchSectionGo (haystack title abstract) ss

/-- Disease id stored by `run_daily.main` (`match_disease(...) or "other"`). -/
def assignedDisease (title abstract : String) (ds : List Disease) : String :=
  match match_disease title abstract ds with
  | none => "other"
  | some s => pyOr s "other"

/-- Dedup key of an article (`run_daily.main`, line 201). -/
def dedupKey (it : Article) : String := choose_key it.doi it.pmid it.title

/-- Summary-cache key of an article (`run_daily.main`, line 224). -/
def cacheKeyOf (it : Article) : String := rawKey it.doi it.pmid it.title

/-- One iteration of the merge loop of `run_daily.main` (lines 199-206):
skip articles whose dedup key is already present, then skip articles whose
journal is not whitelisted, otherwise append under the dedup key. -/
def mergeStep (wl : List JournalEntry) (m : List (String × Article)) (it : Article) :
    List (String × Article) :=
  let key := dedupKey it
  if (m.find? fun p => p.1 == key).isSome then m
  else if is_whitelisted it.journal wl then m ++ [(key, it)]
  else m

/-- The merge loop of `run_daily.main` over the concatenated fetcher output. -/
def mergeAll (wl : List JournalEntry) (items : List Article) : List (String × Article) :=
  items.foldl (mergeStep wl) []

/-- Lookup in the ordered result mapping of the merge loop. -/
def lookupMerged (k : String) (m : List (String × Article)) : Option Article :=
  (m.find? fun p => p.1 == k).map Prod.snd

/-- Convert a digit character to its value. -/
def digitVal? (c : Char) : Option Nat :=
  if 48 ≤ c.toNat && c.toNat ≤ 57 then some (c.toNat - 48) else none

/-- Read a nonempty all-digit character list as a number. -/
def digitsAux (acc : Nat) : List Char → Option Nat
  | [] => some acc
  | c :: rest =>
    match digitVal? c with
    | some d => digitsAux (acc * 10 + d) rest
    | none => none

/-- Read a nonempty all-digit character list as a number (`none` otherwise). -/
def digitsToNat? : List Char → Option Nat
  | [] => none
  | cs => digitsAux 0 cs

/-- Modelled from the spec: the external best-effort date parser
(`dateutil.parser.parse`, a third-party collaborator not part of this
repository) is modelled as accepting ISO `YYYY-MM-DD` dates, returned as the
comparable number `y * 10000 + m * 100 + d`; every other string is a parse
failure (`none`), matching the spec's "best-effort parsed publication date
(parse failures / unparsable dates ...)". -/
def parseDate (s : String) : Option Nat :=
  match splitChar '-' s.data with
  | [y, m, d] =>
    match digitsToNat? y, digitsToNat? m, digitsToNat? d with
    | some yn, some mn, some dn =>
      if y.length == 4 && 1 ≤ mn && mn ≤ 12 && 1 ≤ dn && dn ≤ 31 then
        some (yn * 10000 + mn * 100 + dn)
      else none
    | _, _, _ => none
  | _ => none

/-- Embedding of `sort_key` in `run_daily.main` (lines 208-213): the raw date is
`it.get("published") or it.get("year") or ""`; parse failures are replaced by
`datetime(1900, 1, 1)`, encoded as `19000101`. -/
def sortVal (it : Article) : Nat :=
  match parseDate (pyOr it.published (pyOr it.year "")) with
  | some v => v
  | none => 19000101

/-- Descending-by-date order used by `sorted(..., key=sort_key, reverse=True)`. -/
def sortRel (a b : Article) : Prop := sortVal b ≤ sortVal a

instance : DecidableRel sortRel := fun a b =>
  inferInstanceAs (Decidable (sortVal b ≤ sortVal a))

instance : IsTotal Article sortRel :=
  ⟨fun a b => (Nat.le_total (sortVal b) (sortVal a)).elim Or.inl Or.inr⟩

instance : IsTrans Article sortRel :=
  ⟨fun _ _ _ h1 h2 => Nat.le_trans h2 h1⟩

/-- Merged, date-sorted and truncated article list of `run_daily.main`
(lines 199-216); `n` is `MAX_ITEMS_PER_DAY` (default 10).  `List.insertionSort`
with the non-strict descending order is a stable descending sort, matching
Python's stable `sorted(..., reverse=True)`. -/
def mergedSorted (n : Nat) (wl : List JournalEntry) (items : List Article) : List Article :=
  (List.insertionSort sortRel ((mergeAll wl items).map Prod.snd)).take n

/-- Value stored in the summary cache: either a legacy bare string or the
two-field object written by current runs. -/
inductive CacheVal where
  | legacy (s : String)
  | entry (summary_ja summary_short_ja : String)
deriving DecidableEq, Repr

/-- Lookup in the cache mapping (a Python dict keyed by the cache key). -/
def lookupCache (c : List (String × CacheVal)) (k : String) : Option CacheVal :=
  (c.find? fun p => p.1 == k).map Prod.snd

/-- Python dict assignment `cache[key] = v`: overwrite in place, else append. -/
def setCache (c : List (String × CacheVal)) (k : String) (v : CacheVal) :
    List (String × CacheVal) :=
  if (c.find? fun p => p.1 == k).isSome then
    c.map fun p => if p.1 == k then (k, v) else p
  else c ++ [(k, v)]

/-- Embedding of `run_daily.main` lines 225-230: `cache.get(cache_key) or {}`,
the legacy-bare-string conversion, and the two `cached.get(..., "")` reads.
Returns the (long, short) summaries found in the cache. -/
def readCached : Option CacheVal → String × String
  | none => ("", "")
  | some (CacheVal.legacy s) => if s == "" then ("", "") else (s, "")
  | some (CacheVal.entry l sh) => (l, sh)

/-- Embedding of `run_daily.summarize` (and `summarize_short`, which differs
only in its prompt): the text-generation collaborator is the opaque function
`gen`, `skip` is the `SKIP_SUMMARY == "1"` flag.  Returns the produced summary
together with the number of collaborator invocations made. -/
def summarizeModel (skip : Bool) (gen : String → String → String)
    (title abstract : String) : String × Nat :=
  if skip then ("", 0)
  else if abstract == "" then ("", 0)
  else (strTrim (gen title abstract), 1)

/-- Result of the per-article cache-and-summarize step of `run_daily.main`. -/
structure SumResult where
  summary : String
  summary_short : String
  cache : List (String × CacheVal)
  longCalls : Nat
  shortCalls : Nat
deriving DecidableEq, Repr

/-- Embedding of `run_daily.main` lines 224-243: compute the raw cache key,
read the cached entry (with legacy conversion), call the collaborator only for
the summaries that are still empty, and write the entry back when anything is
non-empty.  `genL`/`genS` are the long/short collaborator calls. -/
def processArticle (skip : Bool) (genL genS : String → String → String)
    (c : List (String × CacheVal)) (it : Article) : SumResult :=
  let ck := cacheKeyOf it
  let cached := readCached (lookupCache c ck)
  let long := if cached.1 == "" then summarizeModel skip genL it.title it.abstract
              else (cached.1, 0)
  let short := if cached.2 == "" then summarizeModel skip genS it.title it.abstract
               else (cached.2, 0)
  let c' := if !(long.1 == "") || !(short.1 == "") then
              setCache c ck (CacheVal.entry long.1 short.1)
            else c
  ⟨long.1, short.1, c', long.2, short.2⟩

/-- Article record of a daily file: the merged article fields spread together
with the classification and summary fields (`run_daily.main` lines 246-254).
The Python `section` field is called `sectionId` because `section` is a Lean
keyword. -/
structure DailyItem where
  doi : Option String
  pmid : Option String
  title : String
  abstract : String
  journal : String
  year : String
  published : String
  url : String
  summary_ja : String
  summary_short_ja : String
  disease : String
  sectionId : String
deriving DecidableEq, Repr

/-- Embedding of the disease-record update loop of `run_daily.main`
(lines 262-269).  The per-disease JSON files are modelled as a store from
disease id to the stored item list; for each configured disease the loop reads
the existing record (default empty), filters today's items for that disease,
and writes back today's subset prepended to the existing list. -/
def updateDiseaseRecords (store : String → Option (List DailyItem))
    (ds : List Disease) (daily : List DailyItem) : String → Option (List DailyItem) :=
  ds.foldl
    (fun st d =>
      let existing := (st d.id).getD []
      let newItems := daily.filter fun it => it.disease == d.id
      fun k => if k == d.id then some (newItems ++ existing) else st k)
    store

/-- Raw reference key of `build_site.build_disease_page` (line 145). -/
def refKeyOf (it : DailyItem) : String := rawKey it.doi it.pmid it.title

/-- Case-insensitive trimmed bullet-dedup key of `build_disease_page` (line 162). -/
def ciKeyOf (it : DailyItem) : String := trimLower (rawKey it.doi it.pmid it.title)

/-- Shared reference-list state of `build_disease_page`: the reference list and
the mapping from raw key to 1-based reference number. -/
structure RefState where
  references : List DailyItem
  refIndex : List (String × Nat)
deriving DecidableEq, Repr

/-- Embedding of the nested `ref_id` of `build_disease_page` (lines 144-149):
return the existing number for the raw key, or append the item to the
reference list under number `len(references) + 1`. -/
def refId (st : RefState) (it : DailyItem) : Nat × RefState :=
  let key := refKeyOf it
  match st.refIndex.find? fun p => p.1 == key with
  | some p => (p.2, st)
  | none =>
    let n := st.references.length + 1
    (n, ⟨st.references ++ [it], st.refIndex ++ [(key, n)]⟩)

/-- Append an item to the insertion-ordered group of its section id
(Python `dict.setdefault` grouping, lines 137-140). -/
def addToGroups (gs : List (String × List DailyItem)) (sid : String) (it : DailyItem) :
    List (String × List DailyItem) :=
  match gs with
  | [] => [(sid, [it])]
  | (k, xs) :: rest =>
    if k == sid then (k, xs ++ [it]) :: rest
    else (k, xs) :: addToGroups rest sid it

/-- Insertion-ordered grouping of a disease's items by
`it.get("section") or "treatment"`. -/
def groupSections (items : List DailyItem) : List (String × List DailyItem) :=
  items.foldl (fun gs it => addToGroups gs (pyOr it.sectionId "treatment") it) []

/-- Rendered bullet of a disease page: the underlying item together with its
bracketed reference number. -/
structure PageBullet where
  item : DailyItem
  rid : Nat
deriving DecidableEq, Repr

/-- Embedding of the inner bullet loop of `build_disease_page` (lines 157-167):
items with an empty short summary are skipped, the section-local `seen_keys`
set drops repeated case-insensitive trimmed keys, and surviving items get a
reference number from the page-global state. -/
def sectionBullets (st : RefState) (seen : List String) :
    List DailyItem → List PageBullet × RefState
  | [] => ([], st)
  | it :: rest =>
    if it.summary_short_ja == "" then sectionBullets st seen rest
    else if seen.contains (ciKeyOf it) then sectionBullets st seen rest
    else
      let r := refId st it
      let tail := sectionBullets r.2 (seen ++ [ciKeyOf it]) rest
      (⟨it, r.1⟩ :: tail.1, tail.2)

/-- Embedding of the outer section loop of `build_disease_page` (lines 151-168):
each section block gets a fresh `seen_keys` set while the reference state is
threaded through the whole page. -/
def pageBlocks (st : RefState) :
    List (String × List DailyItem) → List (String × List PageBullet) × RefState
  | [] => ([], st)
  | (sid, lst) :: rest =>
    let bs := sectionBullets st [] lst
    let more := pageBlocks bs.2 rest
    ((sid, bs.1) :: more.1, more.2)

/-- Embedding of the bullet/reference computation of
`build_site.build_disease_page` (lines 136-183).  The surrounding HTML is pure
string formatting over this data; in the produced page the section blocks
appear in order followed by the compiled reference list, which the result pair
mirrors structurally (`blocks`, then `references`). -/
def build_disease_page (items : List DailyItem) :
    List (String × List PageBullet) × List DailyItem :=
  let r := pageBlocks ⟨[], []⟩ (groupSections items)
  (r.1, r.2.references)

/-- All bullets of a built disease page, in page order. -/
def allBullets (page : List (String × List PageBullet) × List DailyItem) :
    List PageBullet :=
  (page.1.map Prod.snd).flatten

/-- The reference number of a bullet points (1-based) at a reference entry
whose raw key is `k`. -/
def ridPoints (refs : List DailyItem) (rid : Nat) (k : String) : Prop :=
  1 ≤ rid ∧ ∃ r, refs[rid - 1]? = some r ∧ refKeyOf r = k

/-- Index mapping associated to a reference list, with first number `n`. -/
def mkIndexFrom (n : Nat) : List DailyItem → List (String × Nat)
  | [] => []
  | it :: rest => (refKeyOf it, n) :: mkIndexFrom (n + 1) rest

/-- Invariant of the page-global reference state: the index is exactly the
1-based enumeration of the reference list, and raw keys are not repeated. -/
def RefOK (st : RefState) : Prop :=
  st.refIndex = mkIndexFrom 1 st.references ∧ (st.references.map refKeyOf).Nodup

/-- Allow-list used by the concrete examples: single journal `"j"`. -/
def wlEx : List JournalEntry := [⟨"j", []⟩]

/-- Whitelisted article with the given DOI and published date. -/
def mkArt (doi published : String) : Article :=
  ⟨"pubmed", none, some doi, "t", "a", "J", "", published, ""⟩

/-- Article dated 2024-03-02. -/
def art0302 : Article := mkArt "d1" "2024-03-02"

/-- Article dated 2024-03-01. -/
def art0301 : Article := mkArt "d2" "2024-03-01"

/-- Article with the unparsable date "TBD". -/
def artTBD : Article := mkArt "d3" "TBD"

/-- Article dated before 1900. -/
def art1850 : Article := mkArt "d4" "1850-01-01"

/-- Fifteen distinct whitelisted articles, dated 2024-01-1 .. 2024-01-15. -/
def arts15 : List Article :=
  (List.range 15).map fun i =>
    mkArt ("d" ++ toString (i + 1)) ("2024-01-" ++ toString (i + 1))

/-- The ten newest articles of `arts15`, newest first. -/
def expect10 : List Article :=
  (List.range 10).map fun j =>
    mkArt ("d" ++ toString (15 - j)) ("2024-01-" ++ toString (15 - j))

/-- Article with an abstract, used for the summarizer examples. -/
def artAbs : Article := ⟨"pubmed", none, some "10/x", "T", "abs", "J", "", "", ""⟩

/-- Article whose DOI contains uppercase letters. -/
def artU : Article := ⟨"epmc", none, some "10.1/ABC", "T", "", "J", "", "", ""⟩

/-- Article identified only by its title. -/
def artT : Article := ⟨"epmc", none, none, "My Title", "", "J", "", "", ""⟩

/-- Article identified by a DOI. -/
def artD10 : Article := ⟨"pubmed", none, some "10.1/x", "T", "", "J", "", "", ""⟩

/-- Article identified only by PubMed id "12345". -/
def artP10 : Article := ⟨"pubmed", some "12345", none, "T", "", "J", "", "", ""⟩

/-- Article identified only by its title "12345". -/
def artN10 : Article := ⟨"pubmed", none, none, "12345", "", "J", "", "", ""⟩

/-- Daily item with the given title and disease id. -/
def diOf (title disease : String) : DailyItem :=
  ⟨none, none, title, "", "", "", "", "", "", "", disease, "treatment"⟩

/-- Stored item A of the disease-record example. -/
def diA : DailyItem := diOf "A" "pd"

/-- Stored item B of the disease-record example. -/
def diB : DailyItem := diOf "B" "pd"

/-- New item C of the disease-record example. -/
def diC : DailyItem := diOf "C" "pd"

/-- Disease "pd" of the disease-record example. -/
def dPD : Disease := ⟨"pd", []⟩

/-- Store holding the existing record `[A, B]` for disease "pd". -/
def storeC8 : String → Option (List DailyItem) :=
  fun k => if k == "pd" then some [diA, diB] else none

/-- Disease-page item with DOI "D" in section "a". -/
def ciA : DailyItem := ⟨some "D", none, "t1", "", "", "", "", "", "", "s1", "pd", "a"⟩

/-- Disease-page item with DOI "d" in section "b": the same case-insensitive
key as `ciA`, but a different raw key and section. -/
def ciB : DailyItem := ⟨some "d", none, "t2", "", "", "", "", "", "", "s2", "pd", "b"⟩

/-- Disease-page item with DOI "d" in section "a": a within-section duplicate
of `ciA`'s case-insensitive key, listed after `ciA`. -/
def ciC : DailyItem := ⟨some "d", none, "t3", "", "", "", "", "", "", "s3", "pd", "a"⟩

/-! ### Generic helper lemmas -/

lemma keyPre_ne_doi_pmid (x y : String) : "doi:" ++ x ≠ "pmid:" ++ y := by
  intro h
  have h2 : 'd' :: 'o' :: 'i' :: ':' :: x.data = 'p' :: 'm' :: 'i' :: 'd' :: ':' :: y.data :=
    congrArg String.data h
  injection h2 with h3 _
  exact absurd h3 (by decide)

lemma keyPre_ne_doi_title (x y : String) : "doi:" ++ x ≠ "title:" ++ y := by
  intro h
  have h2 : 'd' :: 'o' :: 'i' :: ':' :: x.data = 't' :: 'i' :: 't' :: 'l' :: 'e' :: ':' :: y.data :=
    congrArg String.data h
  injection h2 with h3 _
  exact absurd h3 (by decide)

lemma keyPre_ne_pmid_title (x y : String) : "pmid:" ++ x ≠ "title:" ++ y := by
  intro h
  have h2 : 'p' :: 'm' :: 'i' :: 'd' :: ':' :: x.data = 't' :: 'i' :: 't' :: 'l' :: 'e' :: ':' :: y.data :=
    congrArg String.data h
  injection h2 with h3 _
  exact absurd h3 (by decide)

/-! ### C2 -/

/-- C2: the dedup key is selected by the priority DOI, then PubMed id, then
normalized title, with the DOI compared case-insensitively and trimmed, the
PubMed id trimmed, and the title normalized; records agreeing on the selected
identifier up to that normalization compute identical dedup keys, and all
articles with no DOI, no PubMed id and an empty title share a single key. -/
theorem C2_dedup_key_normalization :
    (∀ (d1 d2 p1 p2 : Option String) (t1 t2 : String),
       truthy d1 = true → truthy d2 = true →
       lowerTrim (optVal d1) = lowerTrim (optVal d2) →
       choose_key d1 p1 t1 = choose_key d2 p2 t2)
    ∧ (∀ (d1 d2 p1 p2 : Option String) (t1 t2 : String),
       truthy d1 = false → truthy d2 = false →
       truthy p1 = true → truthy p2 = true →
       strTrim (optVal p1) = strTrim (optVal p2) →
       choose_key d1 p1 t1 = choose_key d2 p2 t2)
    ∧ (∀ (d1 d2 p1 p2 : Option String) (t1 t2 : String),
       truthy d1 = false → truthy d2 = false →
       truthy p1 = false → truthy p2 = false →
       normalize_title t1 = normalize_title t2 →
       choose_key d1 p1 t1 = choose_key d2 p2 t2)
    ∧ (∀ d1 d2 p1 p2 : Option String,
       truthy d1 = false → truthy d2 = false →
       truthy p1 = false → truthy p2 = false →
       choose_key d1 p1 "" = choose_key d2 p2 "") := by
  refine ⟨?_, ?_, ?_, ?_⟩
  · intro d1 d2 p1 p2 t1 t2 h1 h2 h3
    simp [choose_key, h1, h2, h3]
  · intro d1 d2 p1 p2 t1 t2 h1 h2 h3 h4 h5
    simp [choose_key, h1, h2, h3, h4, h5]
  · intro d1 d2 p1 p2 t1 t2 h1 h2 h3 h4 h5
    simp [choose_key, h1, h2, h3, h4, h5]
  · intro d1 d2 p1 p2 h1 h2 h3 h4
    simp [choose_key, h1, h2, h3, h4]

/-- Witness for C2 at concrete inputs. -/
theorem C2_dedup_key_normalization_witness :
    choose_key (some " 10.I/AbC") (some "1") "x" = choose_key (some "10.i/abc ") none "y"
    ∧ choose_key none (some " 77 ") "x" = choose_key (some "") (some "77") "y"
    ∧ choose_key none none "Hello, World!" = choose_key (some "") (some "") "HELLO  world"
    ∧ choose_key none none "" = choose_key (some "") none "" := by
  refine ⟨C2_dedup_key_normalization.1 _ _ _ _ _ _ (by decide) (by decide) (by decide),
    C2_dedup_key_normalization.2.1 _ _ _ _ _ _ (by decide) (by decide) (by decide) (by decide)
      (by decide),
    C2_dedup_key_normalization.2.2.1 _ _ _ _ _ _ (by decide) (by decide) (by decide) (by decide)
      (by decide),
    C2_dedup_key_normalization.2.2.2 _ _ _ _ (by decide) (by decide) (by decide) (by decide)⟩

/-! ### C5 -/

/-- C5: an article passes the journal filter iff its journal name, lowercased
and trimmed, is exactly the lowercased and trimmed canonical name or alias of
some allow-list entry (never a substring match); an empty journal name is never
whitelisted, and the merge loop discards such an article. -/
theorem C5_whitelist_exact :
    (∀ (j : String) (wl : List JournalEntry),
       is_whitelisted j wl = true ↔
         j ≠ "" ∧ ∃ e ∈ wl, ∃ n ∈ e.name :: e.aliases, lowerTrim j = lowerTrim n)
    ∧ (∀ wl : List JournalEntry, is_whitelisted "" wl = false)
    ∧ (∀ (wl : List JournalEntry) (m : List (String × Article)) (it : Article),
       it.journal = "" → mergeStep wl m it = m) := by
  refine ⟨?_, ?_, ?_⟩
  · intro j wl
    by_cases hj : j = ""
    · subst hj
      simp [is_whitelisted]
    · simp [is_whitelisted, hj, List.any_eq_true, beq_iff_eq]
  · intro wl
    simp [is_whitelisted]
  · intro wl m it h
    unfold mergeStep
    have hw : is_whitelisted it.journal wl = false := by rw [h]; simp [is_whitelisted]
    rw [hw]
    simp

/-- Witness for C5 at concrete inputs. -/
theorem C5_whitelist_exact_witness :
    is_whitelisted " NEJM " [⟨"nejm", ["n engl j med"]⟩] = true
    ∧ is_whitelisted "the nejm journal" [⟨"nejm", []⟩] = false
    ∧ mergeStep [⟨"nejm", []⟩] [] ⟨"pubmed", none, none, "t", "", "", "", "", ""⟩ = [] := by
  exact ⟨(C5_whitelist_exact.1 _ _).mpr (by decide), by decide,
    C5_whitelist_exact.2.2 _ _ _ rfl⟩

/-! ### C7 -/

/-- C7: the summarizer's cache key is the raw DOI if present, else the raw
PubMed id, else the raw title, with no lowercasing, trimming, prefixing or
normalization; consequently there are articles (an uppercase DOI, a title-keyed
article) whose cache key differs from their dedup key. -/
theorem C7_cache_key_raw :
    (∀ it : Article,
       (truthy it.doi = true → cacheKeyOf it = optVal it.doi)
       ∧ (truthy it.doi = false → truthy it.pmid = true → cacheKeyOf it = optVal it.pmid)
       ∧ (truthy it.doi = false → truthy it.pmid = false → cacheKeyOf it = it.title))
    ∧ cacheKeyOf artU ≠ dedupKey artU
    ∧ cacheKeyOf artT ≠ dedupKey artT := by
  refine ⟨fun it => ⟨?_, ?_, ?_⟩, by decide, by decide⟩
  · intro h1
    simp [cacheKeyOf, rawKey, h1]
  · intro h1 h2
    simp [cacheKeyOf, rawKey, h1, h2]
  · intro h1 h2
    simp [cacheKeyOf, rawKey, h1, h2]

/-- Witness for C7 at concrete inputs. -/
theorem C7_cache_key_raw_witness :
    cacheKeyOf artU = "10.1/ABC" ∧ cacheKeyOf artT = "My Title" := by
  exact ⟨((C7_cache_key_raw.1 artU).1 (by decide)).trans (by decide),
    ((C7_cache_key_raw.1 artT).2.2 (by decide) (by decide)).trans (by decide)⟩

/-! ### C10 -/

/-- C10: every dedup key carries the type prefix of the identifier it was
derived from, so dedup keys derived from different identifier kinds are never
equal; the cache key has no prefix, so two articles of different identifier
kinds can share a cache key while their dedup keys still differ. -/
theorem C10_key_type_prefixes :
    (∀ a b : Article, truthy a.doi = true → truthy b.doi = false →
       dedupKey a ≠ dedupKey b)
    ∧ (∀ a b : Article, truthy a.doi = false → truthy a.pmid = true →
       truthy b.doi = false → truthy b.pmid = false → dedupKey a ≠ dedupKey b)
    ∧ cacheKeyOf artP10 = cacheKeyOf artN10
    ∧ dedupKey artP10 ≠ dedupKey artN10 := by
  refine ⟨?_, ?_, by decide, by decide⟩
  · intro a b ha hb
    by_cases hp : truthy b.pmid = true
    · simp only [dedupKey, choose_key, ha, hb, hp, if_true, Bool.false_eq_true, if_false]
      exact keyPre_ne_doi_pmid _ _
    · have hp' : truthy b.pmid = false := by
        cases hh : truthy b.pmid
        · rfl
        · exact absurd hh hp
      simp only [dedupKey, choose_key, ha, hb, hp', if_true, Bool.false_eq_true, if_false]
      exact keyPre_ne_doi_title _ _
  · intro a b ha hap hb hbp
    simp only [dedupKey, choose_key, ha, hap, hb, hbp, if_true, Bool.false_eq_true, if_false]
    exact keyPre_ne_pmid_title _ _

/-- Witness for C10 at concrete inputs. -/
theorem C10_key_type_prefixes_witness :
    dedupKey artD10 ≠ dedupKey artP10 ∧ dedupKey artP10 ≠ dedupKey artN10 := by
  exact ⟨C10_key_type_prefixes.1 artD10 artP10 (by decide) (by decide),
    C10_key_type_prefixes.2.1 artP10 artN10 (by decide) (by decide) (by decide) (by decide)⟩

/-! ### C4 -/

lemma termsHit_eq_any (text : String) (ts : List String) :
    termsHit text ts = ts.any fun t => containsStr text (strLower t) := by
  induction ts with
  | nil => rfl
  | cons t rest ih =>
    by_cases h : containsStr text (strLower t) = true
    · simp [termsHit, h]
    · have h' : containsStr text (strLower t) = false := by
        cases hh : containsStr text (strLower t)
        · rfl
        · exact absurd hh h
      simp [termsHit, h', ih]

lemma matchDiseaseGo_eq_find (text : String) (ds : List Disease) :
    matchDiseaseGo text ds = (ds.find? fun d => termsHit text d.terms).map Disease.id := by
  induction ds with
  | nil => rfl
  | cons d rest ih =>
    rw [List.find?_cons]
    by_cases h : termsHit text d.terms = true
    · simp [matchDiseaseGo, h]
    · have h' : termsHit text d.terms = false := by
        cases hh : termsHit text d.terms
        · rfl
        · exact absurd hh h
      simp [matchDiseaseGo, h', ih]

lemma matchSectionGo_eq_find (text : String) (ss : List SectionCfg) :
    matchSectionGo text ss =
      ((ss.find? fun s => termsHit text s.keywords).map SectionCfg.id).getD "treatment" := by
  induction ss with
  | nil => rfl
  | cons s rest ih =>
    rw [List.find?_cons]
    by_cases h : termsHit text s.keywords = true
    · simp [matchSectionGo, h]
    · have h' : termsHit text s.keywords = false := by
        cases hh : termsHit text s.keywords
        · rfl
        · exact absurd hh h
      simp [matchSectionGo, h', ih]

/-- C4: classification is a function of the lowercased `title + " " + abstract`
haystack; the stored disease id is the id of the first configured disease one
of whose terms occurs case-insensitively in the haystack (falling back to
"other", also when that id is itself falsy), and the section id is computed by
the identical algorithm over the configured sections with fallback
"treatment"; earlier-configured entries win. -/
theorem C4_classifier_first_match :
    ∀ (title abstract : String) (ds : List Disease) (ss : List SectionCfg),
      assignedDisease title abstract ds =
        (match ds.find? (fun d => d.terms.any fun t =>
            containsStr (haystack title abstract) (strLower t)) with
         | some d => pyOr d.id "other"
         | none => "other")
      ∧ match_section title abstract ss =
        (match ss.find? (fun s => s.keywords.any fun t =>
            containsStr (haystack title abstract) (strLower t)) with
         | some s => s.id
         | none => "treatment") := by
  intro title abstract ds ss
  have hfd : (fun d : Disease => d.terms.any fun t =>
      containsStr (haystack title abstract) (strLower t)) =
      fun d : Disease => termsHit (haystack title abstract) d.terms := by
    funext d
    exact (termsHit_eq_any _ _).symm
  have hfs : (fun s : SectionCfg => s.keywords.any fun t =>
      containsStr (haystack title abstract) (strLower t)) =
      fun s : SectionCfg => termsHit (haystack title abstract) s.keywords := by
    funext s
    exact (termsHit_eq_any _ _).symm
  constructor
  · rw [hfd]
    unfold assignedDisease match_disease
    rw [matchDiseaseGo_eq_find]
    cases hf : ds.find? fun d => termsHit (haystack title abstract) d.terms <;> simp [hf]
  · rw [hfs]
    unfold match_section
    rw [matchSectionGo_eq_find]
    cases hf : ss.find? fun s => termsHit (haystack title abstract) s.keywords <;> simp [hf]

/-! ### C8 -/

lemma updateDiseaseRecords_cons (store : String → Option (List DailyItem))
    (d : Disease) (rest : List Disease) (daily : List DailyItem) :
    updateDiseaseRecords store (d :: rest) daily =
      updateDiseaseRecords
        (fun k => if k == d.id then
            some ((daily.filter fun it => it.disease == d.id) ++ ((store d.id).getD []))
          else store k)
        rest daily := rfl

lemma updateDiseaseRecords_skip (daily : List DailyItem) (did : String) :
    ∀ (ds : List Disease) (store : String → Option (List DailyItem)),
      did ∉ ds.map Disease.id →
      updateDiseaseRecords store ds daily did = store did := by
  intro ds
  induction ds with
  | nil => intro store _; rfl
  | cons d rest ih =>
    intro store hmem
    rw [List.map_cons, List.mem_cons] at hmem
    push_neg at hmem
    rw [updateDiseaseRecords_cons, ih _ hmem.2]
    have : (did == d.id) = false := by
      simpa [beq_eq_false_iff_ne] using hmem.1
    simp [this]

/-- C8: for a disease id occurring (once) in the configured list, the update
loop writes back exactly today's articles classified to that disease,
prepended in order ahead of the full previously stored list; item counts add
up, so nothing is deduplicated against history. -/
theorem C8_disease_record_prepend :
    ∀ (store : String → Option (List DailyItem)) (ds : List Disease)
      (daily : List DailyItem) (did : String),
      did ∈ ds.map Disease.id → (ds.map Disease.id).Nodup →
      updateDiseaseRecords store ds daily did =
          some ((daily.filter fun it => it.disease == did) ++ ((store did).getD []))
        ∧ ∀ x : DailyItem,
            ((daily.filter fun it => it.disease == did) ++ ((store did).getD [])).count x =
              (daily.filter fun it => it.disease == did).count x +
                ((store did).getD []).count x := by
  intro store ds daily did hmem hnd
  refine ⟨?_, fun x => List.count_append _ _ _⟩
  induction ds generalizing store with
  | nil => simp at hmem
  | cons d rest ih =>
    rw [List.map_cons, List.mem_cons] at hmem
    rw [List.map_cons, List.nodup_cons] at hnd
    by_cases hd : did = d.id
    · subst hd
      rw [updateDiseaseRecords_cons, updateDiseaseRecords_skip _ _ _ _ hnd.1]
      simp
    · have hb : (did == d.id) = false := by simpa [beq_eq_false_iff_ne] using hd
      have hmem' : did ∈ rest.map Disease.id := by
        rcases hmem with h | h
        · exact absurd h hd
        · exact h
      rw [updateDiseaseRecords_cons]
      rw [ih _ hmem' hnd.2]
      simp [hb]

/-- Witness for C8: prepending new item C to the stored record [A, B]. -/
theorem C8_disease_record_prepend_witness :
    updateDiseaseRecords storeC8 [dPD] [diC] "pd" = some [diC, diA, diB] := by
  have h := (C8_disease_record_prepend storeC8 [dPD] [diC] "pd" (by decide) (by decide)).1
  rw [h]
  decide

/-! ### C6 -/

/-- C6: a cached non-empty long summary is reused verbatim with no collaborator
call for the long summary (independently likewise for the short one); running
the summarization step twice for the same article — the second time starting
from the first run's cache — reuses the first run's responses with zero
collaborator calls; a legacy bare-string cache entry is read as
`{summary_ja: s, summary_short_ja: ""}`; and summarization returns the empty
string with no collaborator call when the skip flag is set or the abstract is
empty. -/
theorem C6_summary_cache_reuse :
    (∀ (skip : Bool) (genL genS : String → String → String)
       (c : List (String × CacheVal)) (it : Article),
       (readCached (lookupCache c (cacheKeyOf it))).1 ≠ "" →
         (processArticle skip genL genS c it).summary =
             (readCached (lookupCache c (cacheKeyOf it))).1
           ∧ (processArticle skip genL genS c it).longCalls = 0)
    ∧ (∀ (skip : Bool) (genL genS : String → String → String)
       (c : List (String × CacheVal)) (it : Article),
       (readCached (lookupCache c (cacheKeyOf it))).2 ≠ "" →
         (processArticle skip genL genS c it).summary_short =
             (readCached (lookupCache c (cacheKeyOf it))).2
           ∧ (processArticle skip genL genS c it).shortCalls = 0)
    ∧ (∀ (genL genS genL2 genS2 : String → String → String) (it : Article),
       it.abstract ≠ "" →
       strTrim (genL it.title it.abstract) ≠ "" →
       strTrim (genS it.title it.abstract) ≠ "" →
         (processArticle false genL2 genS2
             (processArticle false genL genS [] it).cache it).summary =
           (processArticle false genL genS [] it).summary
         ∧ (processArticle false genL2 genS2
             (processArticle false genL genS [] it).cache it).summary_short =
           (processArticle false genL genS [] it).summary_short
         ∧ (processArticle false genL2 genS2
             (processArticle false genL genS [] it).cache it).longCalls = 0
         ∧ (processArticle false genL2 genS2
             (processArticle false genL genS [] it).cache it).shortCalls = 0)
    ∧ (∀ s : String, readCached (some (CacheVal.legacy s)) = (s, ""))
    ∧ (∀ (gen : String → String → String) (t a : String),
         summarizeModel true gen t a = ("", 0))
    ∧ (∀ (skip : Bool) (gen : String → String → String) (t : String),
         summarizeModel skip gen t "" = ("", 0)) := by
  refine ⟨?_, ?_, ?_, ?_, ?_, ?_⟩
  · intro skip genL genS c it h
    have hb : ((readCached (lookupCache c (cacheKeyOf it))).1 == "") = false := by
      simpa [beq_eq_false_iff_ne] using h
    constructor <;> simp [processArticle, hb]
  · intro skip genL genS c it h
    have hb : ((readCached (lookupCache c (cacheKeyOf it))).2 == "") = false := by
      simpa [beq_eq_false_iff_ne] using h
    constructor <;> simp [processArticle, hb]
  · intro genL genS genL2 genS2 it ha hl hs
    have ha' : (it.abstract == "") = false := by simpa [beq_eq_false_iff_ne] using ha
    have hl' : (strTrim (genL it.title it.abstract) == "") = false := by
      simpa [beq_eq_false_iff_ne] using hl
    have hs' : (strTrim (genS it.title it.abstract) == "") = false := by
      simpa [beq_eq_false_iff_ne] using hs
    have r1eq : processArticle false genL genS [] it =
        ⟨strTrim (genL it.title it.abstract), strTrim (genS it.title it.abstract),
          [(cacheKeyOf it,
            CacheVal.entry (strTrim (genL it.title it.abstract))
              (strTrim (genS it.title it.abstract)))], 1, 1⟩ := by
      simp [processArticle, lookupCache, readCached, summarizeModel, setCache, ha', hl']
    refine ⟨?_, ?_, ?_, ?_⟩ <;> rw [r1eq] <;>
      simp [processArticle, lookupCache, readCached, setCache, hl', hs']
  · intro s
    by_cases h : s = ""
    · subst h
      simp [readCached]
    · simp [readCached, h]
  · intro gen t a
    rfl
  · intro skip gen t
    cases skip <;> rfl

/-- Witness for C6: two runs over the same article reuse the first run's
responses with no further collaborator calls. -/
theorem C6_summary_cache_reuse_witness :
    (processArticle false (fun _ _ => "L2") (fun _ _ => "S2")
        (processArticle false (fun _ _ => "L1") (fun _ _ => "S1") [] artAbs).cache
        artAbs).summary =
      (processArticle false (fun _ _ => "L1") (fun _ _ => "S1") [] artAbs).summary
    ∧ (processArticle false (fun _ _ => "L2") (fun _ _ => "S2")
        (processArticle false (fun _ _ => "L1") (fun _ _ => "S1") [] artAbs).cache
        artAbs).longCalls = 0
    ∧ (processArticle false (fun _ _ => "L2") (fun _ _ => "S2")
        (processArticle false (fun _ _ => "L1") (fun _ _ => "S1") [] artAbs).cache
        artAbs).shortCalls = 0 := by
  have h := C6_summary_cache_reuse.2.2.1 (fun _ _ => "L1") (fun _ _ => "S1")
    (fun _ _ => "L2") (fun _ _ => "S2") artAbs (by decide) (by decide) (by decide)
  exact ⟨h.1, h.2.2.1, h.2.2.2⟩

/-! ### C1 -/

lemma mergeStep_eq (wl : List JournalEntry) (acc : List (String × Article)) (it : Article) :
    mergeStep wl acc it =
      if (acc.find? fun p => p.1 == dedupKey it).isSome then acc
      else if is_whitelisted it.journal wl then acc ++ [(dedupKey it, it)]
      else acc := rfl

lemma mergeFold_lookup (wl : List JournalEntry) (k : String) :
    ∀ (items : List Article) (acc : List (String × Article)),
      lookupMerged k (items.foldl (mergeStep wl) acc) =
        (match lookupMerged k acc with
         | some v => some v
         | none =>
             (items.filter fun it =>
               (dedupKey it == k) && is_whitelisted it.journal wl).head?) := by
  intro items
  induction items with
  | nil =>
    intro acc
    cases h : lookupMerged k acc <;> simp [h]
  | cons it rest ih =>
    intro acc
    rw [List.foldl_cons, ih]
    by_cases hk : dedupKey it = k
    · subst hk
      by_cases h1 : (acc.find? fun p => p.1 == dedupKey it).isSome = true
      · obtain ⟨pr, hpr⟩ := Option.isSome_iff_exists.mp h1
        have hacc : lookupMerged (dedupKey it) acc = some pr.2 := by
          simp [lookupMerged, hpr]
        simp [mergeStep, h1, hacc]
      · have h0 : (acc.find? fun p => p.1 == dedupKey it) = none := by
          cases hh : acc.find? fun p => p.1 == dedupKey it
          · rfl
          · rw [hh] at h1
            simp at h1
        have hacc : lookupMerged (dedupKey it) acc = none := by
          simp [lookupMerged, h0]
        by_cases hw : is_whitelisted it.journal wl = true
        · have hnew : lookupMerged (dedupKey it) (acc ++ [(dedupKey it, it)]) = some it := by
            simp [lookupMerged, List.find?_append, h0]
          simp [mergeStep, h1, hw, hacc, hnew, List.filter_cons]
        · have hw' : is_whitelisted it.journal wl = false := by
            cases hh : is_whitelisted it.journal wl
            · rfl
            · exact absurd hh hw
          simp [mergeStep, h1, hw', hacc, List.filter_cons]
    · have hbk : (dedupKey it == k) = false := by
        simpa [beq_eq_false_iff_ne] using hk
      have hstep : lookupMerged k (mergeStep wl acc it) = lookupMerged k acc := by
        rw [mergeStep_eq]
        split_ifs with h1 h2
        · rfl
        · simp [lookupMerged, List.find?_append, hbk]
        · rfl
      rw [hstep]
      have hfc : ((it :: rest).filter fun a =>
          (dedupKey a == k) && is_whitelisted a.journal wl) =
          rest.filter fun a => (dedupKey a == k) && is_whitelisted a.journal wl := by
        simp [List.filter_cons, hbk]
      rw [hfc]

lemma mergeFold_nodup (wl : List JournalEntry) :
    ∀ (items : List Article) (acc : List (String × Article)),
      (acc.map Prod.fst).Nodup →
      ((items.foldl (mergeStep wl) acc).map Prod.fst).Nodup := by
  intro items
  induction items with
  | nil => exact fun acc h => h
  | cons it rest ih =>
    intro acc h
    rw [List.foldl_cons]
    apply ih
    rw [mergeStep_eq]
    split_ifs with h1 h2
    · exact h
    · rw [List.map_append]
      simp only [List.map_cons, List.map_nil]
      rw [List.nodup_append]
      refine ⟨h, List.nodup_singleton _, ?_⟩
      rw [List.disjoint_singleton]
      intro hmem
      have hnone : (acc.find? fun p => p.1 == dedupKey it) = none := by
        cases hh : acc.find? fun p => p.1 == dedupKey it
        · rfl
        · rw [hh] at h1
          simp at h1
      have hall := List.find?_eq_none.mp hnone
      obtain ⟨pr, hpr, hfst⟩ := List.mem_map.mp hmem
      exact absurd (by simp [hfst] : (pr.1 == dedupKey it) = true) (by simpa using hall pr hpr)
    · exact h

lemma mergeFold_keys (wl : List JournalEntry) :
    ∀ (items : List Article) (acc : List (String × Article)),
      (∀ p ∈ acc, p.1 = dedupKey p.2) →
      ∀ p ∈ items.foldl (mergeStep wl) acc, p.1 = dedupKey p.2 := by
  intro items
  induction items with
  | nil => exact fun acc h => h
  | cons it rest ih =>
    intro acc h
    rw [List.foldl_cons]
    apply ih
    rw [mergeStep_eq]
    split_ifs with h1 h2
    · exact h
    · intro p hp
      rcases List.mem_append.mp hp with hin | hin
      · exact h p hin
      · rw [List.mem_singleton.mp hin]
    · exact h

/-- C1: processing the fetched articles in input order, the merged mapping
holds at most one article per dedup key (keys are unique and each entry is
stored under its article's dedup key), and the article stored under a key is
exactly the first whitelisted article with that key in input order — later
articles with an already-present key are discarded without merging fields. -/
theorem C1_merge_first_whitelisted :
    ∀ (wl : List JournalEntry) (items : List Article) (k : String),
      ((mergeAll wl items).map Prod.fst).Nodup
      ∧ (∀ p ∈ mergeAll wl items, p.1 = dedupKey p.2)
      ∧ lookupMerged k (mergeAll wl items) =
          (items.filter fun it =>
            (dedupKey it == k) && is_whitelisted it.journal wl).head? := by
  intro wl items k
  refine ⟨mergeFold_nodup wl items [] (by simp),
    mergeFold_keys wl items [] (by simp), ?_⟩
  have h := mergeFold_lookup wl k items []
  simpa [mergeAll, lookupMerged] using h

/-! ### C3 -/

/-- C3 counterexample: the code replaces unparsable dates by `datetime(1900, 1, 1)`,
not by the oldest possible date, so an article with an unparsable date does not
sort to the end when another article is dated before 1900: with survivors dated
"TBD" and "1850-01-01" the output is [TBD, 1850-01-01], not the
[1850-01-01, TBD] the claim requires. -/
theorem C3_unparsable_not_oldest_counterexample :
    mergedSorted 10 wlEx [artTBD, art1850] = [artTBD, art1850]
    ∧ mergedSorted 10 wlEx [artTBD, art1850] ≠ [art1850, artTBD]
    ∧ parseDate "TBD" = none
    ∧ parseDate "1850-01-01" = some 18500101
    ∧ sortVal artTBD = 19000101 := by
  refine ⟨by decide, by decide, rfl, by decide, by decide⟩

/-- C3 (amended): the merged output list is sorted by best-effort parsed
publication date in descending order, any article whose date string fails to
parse being treated as dated 1900-01-01 (hence sorting to the end among
articles dated after 1900, as in the concrete instances), and is truncated to
the first `n` articles where `n` is the configurable maximum
(`MAX_ITEMS_PER_DAY`, default 10): for records dated "2024-03-02",
"2024-03-01" and unparsable "TBD" the output order is
[2024-03-02, 2024-03-01, TBD], and with 15 survivors and cap 10 exactly the
first 10 in sorted order are kept. -/
theorem C3_sorted_truncated :
    (∀ (n : Nat) (wl : List JournalEntry) (items : List Article),
       List.Sorted sortRel (mergedSorted n wl items))
    ∧ (∀ (n : Nat) (wl : List JournalEntry) (items : List Article),
       (mergedSorted n wl items).length = min n (mergeAll wl items).length)
    ∧ (∀ it : Article,
       parseDate (pyOr it.published (pyOr it.year "")) = none → sortVal it = 19000101)
    ∧ mergedSorted 10 wlEx [artTBD, art0301, art0302] = [art0302, art0301, artTBD]
    ∧ mergedSorted 10 wlEx arts15 = expect10
    ∧ expect10.length = 10 := by
  refine ⟨?_, ?_, ?_, by decide, by decide, by decide⟩
  · intro n wl items
    exact List.Pairwise.sublist (List.take_sublist _ _) (List.sorted_insertionSort sortRel _)
  · intro n wl items
    simp [mergedSorted, List.length_take, List.length_insertionSort, List.length_map]
  · intro it h
    simp [sortVal, h]

/-- Witness for C3 at concrete inputs. -/
theorem C3_sorted_truncated_witness :
    sortVal artTBD = 19000101 ∧ List.Sorted sortRel (mergedSorted 10 wlEx arts15) :=
  ⟨C3_sorted_truncated.2.2.1 artTBD (by decide), C3_sorted_truncated.1 10 wlEx arts15⟩

/-! ### C9 -/

lemma getElem_append_left_opt :
    ∀ (l t : List DailyItem) (i : Nat) (r : DailyItem),
      l[i]? = some r → (l ++ t)[i]? = some r := by
  intro l t
  induction l with
  | nil =>
    intro i r h
    simp at h
  | cons a l ih =>
    intro i r h
    cases i with
    | zero => simpa using h
    | succ i =>
      rw [List.getElem?_cons_succ] at h
      rw [List.cons_append, List.getElem?_cons_succ]
      exact ih i r h

lemma ridPoints_mono (refs t : List DailyItem) (rid : Nat) (k : String)
    (h : ridPoints refs rid k) : ridPoints (refs ++ t) rid k := by
  obtain ⟨h1, r, hr, hk⟩ := h
  exact ⟨h1, r, getElem_append_left_opt refs t _ r hr, hk⟩

lemma mkIndexFrom_append (x : DailyItem) :
    ∀ (l : List DailyItem) (n : Nat),
      mkIndexFrom n (l ++ [x]) = mkIndexFrom n l ++ [(refKeyOf x, n + l.length)] := by
  intro l
  induction l with
  | nil =>
    intro n
    simp [mkIndexFrom]
  | cons it rest ih =>
    intro n
    have h : n + (rest.length + 1) = (n + 1) + rest.length := by omega
    simp [mkIndexFrom, ih (n + 1), List.length_cons, h]

lemma mkIndexFrom_find_none {k : String} :
    ∀ (l : List DailyItem) (n : Nat),
      ((mkIndexFrom n l).find? fun p => p.1 == k) = none → k ∉ l.map refKeyOf := by
  intro l
  induction l with
  | nil =>
    intro n _
    simp
  | cons it rest ih =>
    intro n h
    rw [mkIndexFrom, List.find?_cons] at h
    by_cases hb : (refKeyOf it == k) = true
    · simp [hb] at h
    · have hb' : (refKeyOf it == k) = false := by
        cases hh : refKeyOf it == k
        · rfl
        · exact absurd hh hb
      simp only [hb'] at h
      simp only [List.map_cons, List.mem_cons]
      push_neg
      refine ⟨?_, ih (n + 1) (by simpa using h)⟩
      intro he
      rw [he] at hb'
      simp at hb'

lemma mkIndexFrom_find_some {k : String} :
    ∀ (l : List DailyItem) (n : Nat) (pr : String × Nat),
      ((mkIndexFrom n l).find? fun p => p.1 == k) = some pr →
      pr.1 = k ∧ n ≤ pr.2 ∧ ∃ r, l[pr.2 - n]? = some r ∧ refKeyOf r = k := by
  intro l
  induction l with
  | nil =>
    intro n pr h
    simp [mkIndexFrom] at h
  | cons it rest ih =>
    intro n pr h
    rw [mkIndexFrom, List.find?_cons] at h
    by_cases hb : (refKeyOf it == k) = true
    · have hk : refKeyOf it = k := by simpa using hb
      simp only [hb, if_pos] at h
      have hpr : pr = (refKeyOf it, n) := by
        cases h
        rfl
      subst hpr
      refine ⟨hk, Nat.le_refl _, it, ?_, hk⟩
      simp
    · have hb' : (refKeyOf it == k) = false := by
        cases hh : refKeyOf it == k
        · rfl
        · exact absurd hh hb
      simp only [hb'] at h
      obtain ⟨h1, h2, r, hr, hrk⟩ := ih (n + 1) pr (by simpa using h)
      refine ⟨h1, by omega, r, ?_, hrk⟩
      have hi : pr.2 - n = (pr.2 - (n + 1)) + 1 := by omega
      rw [hi, List.getElem?_cons_succ]
      exact hr

lemma refId_spec (st : RefState) (it : DailyItem) (hok : RefOK st) :
    RefOK (refId st it).2
    ∧ (∃ t, (refId st it).2.references = st.references ++ t)
    ∧ ridPoints (refId st it).2.references (refId st it).1 (refKeyOf it) := by
  unfold refId
  cases hf : st.refIndex.find? fun p => p.1 == refKeyOf it with
  | some pr =>
    simp only [hf]
    obtain ⟨h1, h2, r, hr, hk⟩ :=
      mkIndexFrom_find_some st.references 1 pr (by rw [← hok.1]; exact hf)
    exact ⟨hok, ⟨[], by simp⟩, h2, r, hr, hk⟩
  | none =>
    simp only [hf]
    have hnotmem : refKeyOf it ∉ st.references.map refKeyOf :=
      mkIndexFrom_find_none st.references 1 (by rw [← hok.1]; exact hf)
    refine ⟨⟨?_, ?_⟩, ⟨[it], rfl⟩, ?_, it, ?_, rfl⟩
    · rw [hok.1, mkIndexFrom_append]
      rw [Nat.add_comm 1 st.references.length]
    · rw [List.map_append]
      simp only [List.map_cons, List.map_nil]
      rw [List.nodup_append]
      refine ⟨hok.2, List.nodup_singleton _, ?_⟩
      rw [List.disjoint_singleton]
      exact hnotmem
    · omega
    · simp [List.getElem?_concat_length]

lemma contains_false_not_mem {seen : List String} {x : String}
    (h : seen.contains x = false) : x ∉ seen := by
  simpa [List.contains] using h

lemma contains_true_mem {seen : List String} {x : String}
    (h : seen.contains x = true) : x ∈ seen := by
  simpa [List.contains] using h

lemma sectionBullets_spec :
    ∀ (lst : List DailyItem) (st : RefState) (seen : List String),
      RefOK st →
      RefOK (sectionBullets st seen lst).2
      ∧ (∃ t, (sectionBullets st seen lst).2.references = st.references ++ t)
      ∧ (∀ b ∈ (sectionBullets st seen lst).1,
          b.item.summary_short_ja ≠ "" ∧ ciKeyOf b.item ∉ seen
          ∧ ridPoints (sectionBullets st seen lst).2.references b.rid (refKeyOf b.item))
      ∧ ((sectionBullets st seen lst).1.map fun b => ciKeyOf b.item).Nodup
      ∧ (∀ b ∈ (sectionBullets st seen lst).1,
          (lst.filter fun it2 =>
            !(it2.summary_short_ja == "") && (ciKeyOf it2 == ciKeyOf b.item)).head?
            = some b.item)
      ∧ (∀ it2 ∈ lst, it2.summary_short_ja ≠ "" → ciKeyOf it2 ∉ seen →
          ∃ b ∈ (sectionBullets st seen lst).1, ciKeyOf b.item = ciKeyOf it2) := by
  intro lst
  induction lst with
  | nil =>
    intro st seen hok
    exact ⟨hok, ⟨[], by simp [sectionBullets]⟩, by simp [sectionBullets],
      by simp [sectionBullets], by simp [sectionBullets], by simp⟩
  | cons it rest ih =>
    intro st seen hok
    by_cases h1 : (it.summary_short_ja == "") = true
    · have hit : it.summary_short_ja = "" := by simpa using h1
      have heq : sectionBullets st seen (it :: rest) = sectionBullets st seen rest := by
        simp only [sectionBullets]
        rw [h1]
        simp
      obtain ⟨hok2, hext, hball, hnodup, hfirst, hcov⟩ := ih st seen hok
      rw [heq]
      refine ⟨hok2, hext, hball, hnodup, ?_, ?_⟩
      · intro b hb
        have hpf : (!(it.summary_short_ja == "")
            && (ciKeyOf it == ciKeyOf b.item)) = false := by
          rw [h1]
          simp
        have hstep : ((it :: rest).filter fun it2 =>
            !(it2.summary_short_ja == "") && (ciKeyOf it2 == ciKeyOf b.item))
            = rest.filter fun it2 =>
              !(it2.summary_short_ja == "") && (ciKeyOf it2 == ciKeyOf b.item) := by
          rw [List.filter_cons]
          simp only [hpf, Bool.false_eq_true, if_false]
        rw [hstep]
        exact hfirst b hb
      · intro it2 hmem hs hns
        rcases List.mem_cons.mp hmem with he | hmem2
        · rw [he] at hs
          exact absurd hit hs
        · exact hcov it2 hmem2 hs hns
    · have h1' : (it.summary_short_ja == "") = false := by
        cases hh : it.summary_short_ja == ""
        · rfl
        · exact absurd hh h1
      by_cases h2 : seen.contains (ciKeyOf it) = true
      · have hseen : ciKeyOf it ∈ seen := contains_true_mem h2
        have heq : sectionBullets st seen (it :: rest) = sectionBullets st seen rest := by
          simp only [sectionBullets]
          rw [h1', h2]
          simp
        obtain ⟨hok2, hext, hball, hnodup, hfirst, hcov⟩ := ih st seen hok
        rw [heq]
        refine ⟨hok2, hext, hball, hnodup, ?_, ?_⟩
        · intro b hb
          have hbne : ciKeyOf b.item ∉ seen := (hball b hb).2.1
          have hneq : (ciKeyOf it == ciKeyOf b.item) = false :=
            beq_eq_false_iff_ne.mpr fun he => hbne (he ▸ hseen)
          have hpf : (!(it.summary_short_ja == "")
              && (ciKeyOf it == ciKeyOf b.item)) = false := by
            rw [hneq]
            simp
          have hstep : ((it :: rest).filter fun it2 =>
              !(it2.summary_short_ja == "") && (ciKeyOf it2 == ciKeyOf b.item))
              = rest.filter fun it2 =>
                !(it2.summary_short_ja == "") && (ciKeyOf it2 == ciKeyOf b.item) := by
            rw [List.filter_cons]
            simp only [hpf, Bool.false_eq_true, if_false]
          rw [hstep]
          exact hfirst b hb
        · intro it2 hmem hs hns
          rcases List.mem_cons.mp hmem with he | hmem2
          · rw [he] at hns
            exact absurd hseen hns
          · exact hcov it2 hmem2 hs hns
      · have h2' : seen.contains (ciKeyOf it) = false := by
          cases hh : seen.contains (ciKeyOf it)
          · rfl
          · exact absurd hh h2
        have heq : sectionBullets st seen (it :: rest) =
            (⟨it, (refId st it).1⟩ ::
              (sectionBullets (refId st it).2 (seen ++ [ciKeyOf it]) rest).1,
             (sectionBullets (refId st it).2 (seen ++ [ciKeyOf it]) rest).2) := by
          simp only [sectionBullets]
          rw [h1', h2']
          simp
        obtain ⟨hokR, ⟨t1, ht1⟩, hpt⟩ := refId_spec st it hok
        obtain ⟨hokT, ⟨t2, ht2⟩, hball, hnodup, hfirst, hcov⟩ :=
          ih (refId st it).2 (seen ++ [ciKeyOf it]) hokR
        rw [heq]
        refine ⟨hokT, ⟨t1 ++ t2, by rw [ht2, ht1, List.append_assoc]⟩, ?_, ?_, ?_, ?_⟩
        · intro b hb
          rcases List.mem_cons.mp hb with hbh | hbt
          · subst hbh
            refine ⟨by simpa [beq_eq_false_iff_ne] using h1',
              contains_false_not_mem h2', ?_⟩
            rw [ht2]
            exact ridPoints_mono _ _ _ _ hpt
          · obtain ⟨hs, hns, hrp⟩ := hball b hbt
            exact ⟨hs, fun hmem => hns (List.mem_append.mpr (Or.inl hmem)), hrp⟩
        · simp only [List.map_cons]
          rw [List.nodup_cons]
          constructor
          · intro hmem
            obtain ⟨b, hbmem, hbeq⟩ := List.mem_map.mp hmem
            obtain ⟨_, hns, _⟩ := hball b hbmem
            exact hns (List.mem_append.mpr (Or.inr (by simp [hbeq])))
          · exact hnodup
        · intro b hb
          rcases List.mem_cons.mp hb with hbh | hbt
          · subst hbh
            show ((it :: rest).filter fun it2 =>
              !(it2.summary_short_ja == "") && (ciKeyOf it2 == ciKeyOf it)).head?
              = some it
            have hpt2 : (!(it.summary_short_ja == "")
                && (ciKeyOf it == ciKeyOf it)) = true := by
              rw [h1']
              simp
            have hne2 : it.summary_short_ja ≠ "" := by
              simpa [beq_eq_false_iff_ne] using h1'
            simp [List.filter_cons, hpt2, hne2]
          · obtain ⟨hs, hns, hrp⟩ := hball b hbt
            have hbne : ciKeyOf b.item ≠ ciKeyOf it := fun he =>
              hns (List.mem_append.mpr (Or.inr (by simp [he])))
            have hneq : (ciKeyOf it == ciKeyOf b.item) = false :=
              beq_eq_false_iff_ne.mpr fun he => hbne he.symm
            have hpf : (!(it.summary_short_ja == "")
                && (ciKeyOf it == ciKeyOf b.item)) = false := by
              rw [hneq]
              simp
            have hstep : ((it :: rest).filter fun it2 =>
                !(it2.summary_short_ja == "") && (ciKeyOf it2 == ciKeyOf b.item))
                = rest.filter fun it2 =>
                  !(it2.summary_short_ja == "") && (ciKeyOf it2 == ciKeyOf b.item) := by
              rw [List.filter_cons]
              simp only [hpf, Bool.false_eq_true, if_false]
            rw [hstep]
            exact hfirst b hbt
        · intro it2 hmem hs hns
          rcases List.mem_cons.mp hmem with he | hmem2
          · refine ⟨⟨it, (refId st it).1⟩, List.mem_cons_self _ _, ?_⟩
            rw [he]
          · by_cases hk : ciKeyOf it2 = ciKeyOf it
            · exact ⟨⟨it, (refId st it).1⟩, List.mem_cons_self _ _, hk.symm⟩
            · have hns2 : ciKeyOf it2 ∉ seen ++ [ciKeyOf it] := by
                intro hm
                rcases List.mem_append.mp hm with hm1 | hm2
                · exact hns hm1
                · exact hk (List.mem_singleton.mp hm2)
              obtain ⟨b, hbmem, hbeq⟩ := hcov it2 hmem2 hs hns2
              exact ⟨b, List.mem_cons_of_mem _ hbmem, hbeq⟩

lemma pageBlocks_spec :
    ∀ (gs : List (String × List DailyItem)) (st : RefState),
      RefOK st →
      RefOK (pageBlocks st gs).2
      ∧ (∃ t, (pageBlocks st gs).2.references = st.references ++ t)
      ∧ (∀ blk ∈ (pageBlocks st gs).1,
          ((blk.2.map fun b => ciKeyOf b.item).Nodup)
          ∧ ∀ b ∈ blk.2, b.item.summary_short_ja ≠ ""
              ∧ ridPoints (pageBlocks st gs).2.references b.rid (refKeyOf b.item))
      ∧ List.Forall₂ (fun g blk =>
          blk.1 = g.1
          ∧ (∀ b ∈ blk.2, (g.2.filter fun it2 =>
              !(it2.summary_short_ja == "") && (ciKeyOf it2 == ciKeyOf b.item)).head?
              = some b.item)
          ∧ (∀ it2 ∈ g.2, it2.summary_short_ja ≠ "" →
              ∃ b ∈ blk.2, ciKeyOf b.item = ciKeyOf it2))
        gs (pageBlocks st gs).1 := by
  intro gs
  induction gs with
  | nil =>
    intro st hok
    exact ⟨hok, ⟨[], by simp [pageBlocks]⟩, by simp [pageBlocks], List.Forall₂.nil⟩
  | cons g rest ih =>
    intro st hok
    obtain ⟨sid, lst⟩ := g
    have heq : pageBlocks st ((sid, lst) :: rest) =
        ((sid, (sectionBullets st [] lst).1) ::
          (pageBlocks (sectionBullets st [] lst).2 rest).1,
         (pageBlocks (sectionBullets st [] lst).2 rest).2) := by
      simp [pageBlocks]
    obtain ⟨hokB, ⟨t1, ht1⟩, hball, hnodup, hfirst, hcov⟩ :=
      sectionBullets_spec lst st [] hok
    obtain ⟨hokM, ⟨t2, ht2⟩, hblocks, hforall⟩ := ih (sectionBullets st [] lst).2 hokB
    rw [heq]
    refine ⟨hokM, ⟨t1 ++ t2, by rw [ht2, ht1, List.append_assoc]⟩, ?_, ?_⟩
    · intro blk hblk
      rcases List.mem_cons.mp hblk with hbh | hbt
      · subst hbh
        refine ⟨hnodup, ?_⟩
        intro b hb
        obtain ⟨hs, _, hrp⟩ := hball b hb
        refine ⟨hs, ?_⟩
        rw [ht2]
        exact ridPoints_mono _ _ _ _ hrp
      · exact hblocks blk hbt
    · exact List.Forall₂.cons
        ⟨rfl, hfirst, fun it2 hm hs => hcov it2 hm hs (by simp)⟩ hforall

/-- C9 counterexample: with two stored items carrying the same
case-insensitive trimmed key "d" (raw keys "D" and "d") in two different
sections, the rendered page lists both bullets and the reference list holds two
entries for that case-insensitive key — the page does not de-duplicate across
the whole page, and reference entries are keyed by the raw, not the
case-insensitive, key. -/
theorem C9_pagewide_dedup_counterexample :
    (allBullets (build_disease_page [ciA, ciB])).countP
        (fun b => ciKeyOf b.item == "d") = 2
    ∧ ¬ ((allBullets (build_disease_page [ciA, ciB])).countP
        (fun b => ciKeyOf b.item == "d") ≤ 1)
    ∧ ((build_disease_page [ciA, ciB]).2.countP fun it => ciKeyOf it == "d") = 2
    ∧ ¬ (((build_disease_page [ciA, ciB]).2.countP fun it => ciKeyOf it == "d") ≤ 1)
    ∧ ciKeyOf ciA = ciKeyOf ciB := by
  exact ⟨by decide, by decide, by decide, by decide, by decide⟩

/-- C9 (amended): on a disease page every rendered bullet has a non-empty
short summary; bullets are de-duplicated within each section block by the
case-insensitive trimmed doi/pmid/title key with the first occurrence in the
section winning — for every section group (matched to its block in order),
each listed bullet is exactly the first item of that section's list having a
non-empty short summary and the bullet's key, and every item of the section
with a non-empty short summary has its key represented by a bullet; all
bullets share one page-global numbered reference list — compiled after all
section blocks — in which each distinct raw (unnormalized) doi/pmid/title key
receives exactly one entry, every bullet's bracketed index pointing at a
reference entry with the bullet's raw key. -/
theorem C9_disease_page_rendering (items : List DailyItem) :
    ((build_disease_page items).2.map refKeyOf).Nodup
    ∧ (∀ blk ∈ (build_disease_page items).1,
        ((blk.2.map fun b => ciKeyOf b.item).Nodup)
        ∧ ∀ b ∈ blk.2, b.item.summary_short_ja ≠ ""
            ∧ ridPoints (build_disease_page items).2 b.rid (refKeyOf b.item))
    ∧ List.Forall₂ (fun g blk =>
        blk.1 = g.1
        ∧ (∀ b ∈ blk.2, (g.2.filter fun it2 =>
            !(it2.summary_short_ja == "") && (ciKeyOf it2 == ciKeyOf b.item)).head?
            = some b.item)
        ∧ (∀ it2 ∈ g.2, it2.summary_short_ja ≠ "" →
            ∃ b ∈ blk.2, ciKeyOf b.item = ciKeyOf it2))
      (groupSections items) (build_disease_page items).1 := by
  have h := pageBlocks_spec (groupSections items) ⟨[], []⟩ ⟨rfl, List.nodup_nil⟩
  exact ⟨h.1.2, h.2.2.1, h.2.2.2⟩

/-- Witness for C9 at concrete pages, exercising the within-section
first-occurrence-wins dedup on the page for `[ciA, ciC]`, two items of one
section sharing the case-insensitive key "d". -/
theorem C9_disease_page_rendering_witness :
    ciA.summary_short_ja ≠ ""
    ∧ ridPoints (build_disease_page [ciA, ciB]).2 1 (refKeyOf ciA)
    ∧ ((build_disease_page [ciA, ciB]).2.map refKeyOf).Nodup
    ∧ ([ciA, ciC].filter fun it2 =>
        !(it2.summary_short_ja == "") && (ciKeyOf it2 == ciKeyOf ciA)).head? = some ciA
    ∧ (∃ b ∈ [(⟨ciA, 1⟩ : PageBullet)], ciKeyOf b.item = ciKeyOf ciC) := by
  have h := (C9_disease_page_rendering [ciA, ciB]).2.1 ("a", [⟨ciA, 1⟩]) (by decide)
  have hb := h.2 ⟨ciA, 1⟩ (by decide)
  have h2 := (C9_disease_page_rendering [ciA, ciC]).2.2
  have hg : groupSections [ciA, ciC] = [("a", [ciA, ciC])] := by decide
  have hp : (build_disease_page [ciA, ciC]).1 = [("a", [⟨ciA, 1⟩])] := by decide
  rw [hg, hp] at h2
  obtain ⟨hR, -⟩ := List.forall₂_cons.mp h2
  exact ⟨hb.1, hb.2, (C9_disease_page_rendering [ciA, ciB]).1,
    hR.2.1 ⟨ciA, 1⟩ (by decide), hR.2.2 ciC (by decide) (by decide)⟩

/-- Witness for C1 at a concrete input: a duplicated DOI keeps only the
first-seen article. -/
theorem C1_merge_first_whitelisted_witness :
    lookupMerged "doi:d1" (mergeAll wlEx [art0302, art0302, art0301]) = some art0302
    ∧ "doi:d1" = dedupKey art0302 := by
  have h := C1_merge_first_whitelisted wlEx [art0302, art0302, art0301] "doi:d1"
  exact ⟨h.2.2.trans (by decide), h.2.1 ("doi:d1", art0302) (by decide)⟩
